import Mathlib

/-!
Shallow embedding of the token rendering / segmentation engine from
`src/local/test_soniox_transcription.py`: the time bound resolver
(`token_time_bounds`), the speaker segmenter (`group_tokens_by_speaker`),
the plain renderer (`render_tokens`), the timestamped renderer
(`render_tokens_with_timestamps`) and the subtitle chunker (`tokens_to_srt`),
together with proofs of the specified properties.

Python strings are modelled by `String`; the Python whitespace-stripping
operations are modelled over the character list (`String.data`) so that the
usual list lemmas apply. Millisecond values are modelled by `Int`.
-/

namespace Soniox

/-- Python `str.lstrip()` on the underlying character list. -/
def lstripList (l : List Char) : List Char := l.dropWhile Char.isWhitespace

/-- Python `str.rstrip()` on the underlying character list. -/
def rstripList (l : List Char) : List Char :=
  (l.reverse.dropWhile Char.isWhitespace).reverse

/-- Python `str.strip()` on the underlying character list. -/
def stripList (l : List Char) : List Char := rstripList (lstripList l)

/-- Python `str.strip()`. -/
def pyStrip (s : String) : String := String.mk (stripList s.data)

/-- Python `str.lstrip()`. -/
def pyLstrip (s : String) : String := String.mk (lstripList s.data)

/-- Python `sep.join(parts)`. -/
def joinSep (sep : String) : List String → String
  | [] => ""
  | [s] => s
  | s :: rest => s ++ sep ++ joinSep sep rest

/-- A Soniox token: `text` is required, the remaining fields are optional
keys of the token dictionary. -/
structure Token where
  text : String
  speaker : Option String
  language : Option String
  start_ms : Option Int
  end_ms : Option Int
  duration_ms : Option Int
deriving Repr, DecidableEq

/-- `DEFAULT_SEGMENT_GAP_MS` from the source. -/
def DEFAULT_SEGMENT_GAP_MS : Int := 1500

/-- `token_time_bounds(token)`: `start_ms = token.get("start_ms") or 0`
(for an integer field, `x or 0` is `x` when present and `0` otherwise,
a present `0` being falsy also yields `0`); `end_ms = token.get("end_ms")`,
falling back to `start_ms + duration_ms` and then to `start_ms`. -/
def token_time_bounds (token : Token) : Int × Int :=
  let start_ms := token.start_ms.getD 0
  let end_ms :=
    match token.end_ms with
    | some e => e
    | none =>
      match token.duration_ms with
      | some duration_ms => start_ms + duration_ms
      | none => start_ms
  (start_ms, end_ms)

/-- `token.get("speaker") or "unknown"`: an absent or empty (falsy) speaker
is replaced by the sentinel. -/
def resolve_speaker (token : Token) : String :=
  match token.speaker with
  | some s => if s = "" then "unknown" else s
  | none => "unknown"

/-- A diarized segment as built by `group_tokens_by_speaker`. -/
structure Segment where
  speaker : String
  start_ms : Int
  end_ms : Int
  text : String
deriving Repr, DecidableEq

/-- The segment seeded from a single token. -/
def seedSegment (token : Token) : Segment :=
  { speaker := resolve_speaker token
    start_ms := (token_time_bounds token).1
    end_ms := (token_time_bounds token).2
    text := token.text }

/-- Extending the current segment with a token: concatenate the text and
take the running maximum of the end bounds. -/
def extendSegment (cur : Segment) (token : Token) : Segment :=
  { cur with
    text := cur.text ++ token.text
    end_ms := max cur.end_ms (token_time_bounds token).2 }

/-- One iteration of the loop body of `group_tokens_by_speaker`; the state is
the finalized segments so far and the optional current segment. -/
def groupStep (gap_ms : Int) (st : List Segment × Option Segment) (token : Token) :
    List Segment × Option Segment :=
  match st.2 with
  | none => (st.1, some (seedSegment token))
  | some cur =>
    let speaker_changed := resolve_speaker token ≠ cur.speaker
    let long_pause := (token_time_bounds token).1 - cur.end_ms > gap_ms
    if speaker_changed ∨ long_pause then
      (st.1 ++ [cur], some (seedSegment token))
    else
      (st.1, some (extendSegment cur token))

/-- `group_tokens_by_speaker(final_tokens, gap_ms)`. -/
def group_tokens_by_speaker (final_tokens : List Token) (gap_ms : Int) :
    List Segment :=
  let st := final_tokens.foldl (groupStep gap_ms) ([], none)
  match st.2 with
  | some cur => st.1 ++ [cur]
  | none => st.1

/-- State of the loop in `render_tokens`: emitted pieces (in order) and the
tracked speaker and language. -/
structure RenderState where
  parts : List String
  current_speaker : Option String
  current_language : Option String
deriving Repr, DecidableEq

/-- One iteration of the loop body of `render_tokens`. -/
def renderStep (st : RenderState) (token : Token) : RenderState :=
  let speaker := resolve_speaker token
  let st1 :=
    if some speaker ≠ st.current_speaker then
      { parts := st.parts ++
          (if st.current_speaker.isSome then ["\n\n"] else []) ++
          ["Speaker " ++ speaker ++ ":"]
        current_speaker := some speaker
        current_language := none }
    else st
  match token.language with
  | some language =>
    if some language ≠ st1.current_language then
      { parts := st1.parts ++ ["\n[" ++ language ++ "] ", pyLstrip token.text]
        current_speaker := st1.current_speaker
        current_language := some language }
    else { st1 with parts := st1.parts ++ [token.text] }
  | none => { st1 with parts := st1.parts ++ [token.text] }

/-- `render_tokens(final_tokens)`: `"".join(text_parts)` after the loop. -/
def render_tokens (final_tokens : List Token) : String :=
  String.join (final_tokens.foldl renderStep ⟨[], none, none⟩).parts

/-- Zero-pad an integer to two digits (Python `%02d`). -/
def pad2 (n : Int) : String :=
  if 0 ≤ n ∧ n < 10 then "0" ++ toString n else toString n

/-- Zero-pad an integer to three digits (used for the millisecond part). -/
def pad3 (n : Int) : String :=
  if 0 ≤ n ∧ n < 10 then "00" ++ toString n
  else if 0 ≤ n ∧ n < 100 then "0" ++ toString n
  else toString n

/-- `format_time(ms)`: `HH:MM:SS.mmm`. The Python source computes the parts
with float division and floor; over the integer inputs used here this is
exact integer floor division (float rounding at astronomically large inputs
is not modelled). -/
def format_time (ms : Int) : String :=
  pad2 (ms.fdiv 3600000) ++ ":" ++ pad2 ((ms.fmod 3600000).fdiv 60000) ++ ":" ++
    pad2 ((ms.fmod 60000).fdiv 1000) ++ "." ++ pad3 (ms.fmod 1000)

/-- The block emitted by `render_tokens_with_timestamps` for one segment with
non-empty stripped text: `[<start> --> <end>] Speaker <speaker>:\n<text>\n`. -/
def segmentBlock (segment : Segment) (stripped : String) : String :=
  "[" ++ format_time segment.start_ms ++ " --> " ++ format_time segment.end_ms ++
    "] Speaker " ++ segment.speaker ++ ":\n" ++ stripped ++ "\n"

/-- Loop body of `render_tokens_with_timestamps`: skip a segment whose
stripped text is empty, otherwise append its block. -/
def timestampFoldStep (acc : List String) (segment : Segment) : List String :=
  let segment_text := pyStrip segment.text
  if segment_text = "" then acc
  else acc ++ [segmentBlock segment segment_text]

/-- `render_tokens_with_timestamps(final_tokens)`: segments via
`group_tokens_by_speaker` at the default gap, one block per segment with
non-empty stripped text, blocks joined with `"\n"`, result stripped. -/
def render_tokens_with_timestamps (final_tokens : List Token) : String :=
  let segments := group_tokens_by_speaker final_tokens DEFAULT_SEGMENT_GAP_MS
  if segments = [] then ""
  else pyStrip (joinSep "\n" (segments.foldl timestampFoldStep []))

/-- `format_srt_time(ms)`: `HH:MM:SS,mmm` with truncated seconds and
`ms mod 1000` milliseconds. -/
def format_srt_time (ms : Int) : String :=
  pad2 (ms.fdiv 3600000) ++ ":" ++ pad2 ((ms.fmod 3600000).fdiv 60000) ++ ":" ++
    pad2 ((ms.fmod 60000).fdiv 1000) ++ "," ++ pad3 (ms.fmod 1000)

/-- State of the loop in `tokens_to_srt`. `chunk_end_ms` is `none` only while
no chunk is open (it is always set together with `chunk_start_ms`). -/
structure SrtState where
  srt_parts : List String
  chunk_index : Int
  chunk_tokens : List String
  chunk_start_ms : Option Int
  chunk_end_ms : Option Int
deriving Repr, DecidableEq

/-- The three strings written for a finalized interior chunk (index line,
time line, stripped text plus blank separator). -/
def srtCaptionParts (st : SrtState) : List String :=
  [toString st.chunk_index ++ "\n",
   format_srt_time (st.chunk_start_ms.getD 0) ++ " --> " ++
     format_srt_time (st.chunk_end_ms.getD 0) ++ "\n",
   pyStrip (String.join st.chunk_tokens) ++ "\n\n"]

/-- One iteration of the loop body of `tokens_to_srt`. -/
def srtStep (chunk_duration_ms : Int) (st : SrtState) (token : Token) : SrtState :=
  let bounds := token_time_bounds token
  match st.chunk_start_ms with
  | none =>
    { st with
      chunk_start_ms := some bounds.1
      chunk_tokens := [token.text]
      chunk_end_ms := some bounds.2 }
  | some chunk_start_ms =>
    if bounds.2 - chunk_start_ms ≤ chunk_duration_ms then
      { st with
        chunk_tokens := st.chunk_tokens ++ [token.text]
        chunk_end_ms := some bounds.2 }
    else
      { srt_parts := st.srt_parts ++ srtCaptionParts st
        chunk_index := st.chunk_index + 1
        chunk_tokens := [token.text]
        chunk_start_ms := some bounds.1
        chunk_end_ms := some bounds.2 }

/-- `tokens_to_srt(final_tokens, chunk_duration_ms)`. -/
def tokens_to_srt (final_tokens : List Token) (chunk_duration_ms : Int) : String :=
  if final_tokens = [] then ""
  else
    let st := final_tokens.foldl (srtStep chunk_duration_ms) ⟨[], 1, [], none, none⟩
    if st.chunk_tokens = [] then String.join st.srt_parts
    else
      String.join (st.srt_parts ++
        [toString st.chunk_index ++ "\n",
         format_srt_time (st.chunk_start_ms.getD 0) ++ " --> " ++
           format_srt_time (st.chunk_end_ms.getD 0) ++ "\n",
         pyStrip (String.join st.chunk_tokens) ++ "\n"])

/-! ### Instrumented segmenter

`runStep` mirrors `groupStep` but additionally records, next to each segment,
the contiguous run of tokens that formed it. -/

/-- `groupStep` instrumented with the run of source tokens of each segment. -/
def runStep (gap_ms : Int)
    (st : List (Segment × List Token) × Option (Segment × List Token))
    (token : Token) :
    List (Segment × List Token) × Option (Segment × List Token) :=
  match st.2 with
  | none => (st.1, some (seedSegment token, [token]))
  | some cur =>
    let speaker_changed := resolve_speaker token ≠ cur.1.speaker
    let long_pause := (token_time_bounds token).1 - cur.1.end_ms > gap_ms
    if speaker_changed ∨ long_pause then
      (st.1 ++ [cur], some (seedSegment token, [token]))
    else
      (st.1, some (extendSegment cur.1 token, cur.2 ++ [token]))

/-- `group_tokens_by_speaker` instrumented with the token run of each segment. -/
def group_runs (final_tokens : List Token) (gap_ms : Int) :
    List (Segment × List Token) :=
  let st := final_tokens.foldl (runStep gap_ms) ([], none)
  match st.2 with
  | some cur => st.1 ++ [cur]
  | none => st.1

/-- The running maximum of the resolved end bounds of a run of tokens
(seeded with the end bound of the first token). -/
def runEndMax : List Token → Int
  | [] => 0
  | t :: ts => ts.foldl (fun a u => max a (token_time_bounds u).2) (token_time_bounds t).2

/-- The relation the spec requires between two adjacent segments: a speaker
change, or a pause strictly longer than `gap_ms`. -/
def segGapRel (gap_ms : Int) (a b : Segment) : Prop :=
  b.speaker ≠ a.speaker ∨ b.start_ms - a.end_ms > gap_ms

/-! ### Instrumented subtitle chunker -/

/-- A caption chunk of the subtitle chunker: its time span and the
concatenation of the texts of its tokens. -/
structure SrtChunk where
  start_ms : Int
  end_ms : Int
  text : String
deriving Repr, DecidableEq

/-- The chunk-level view of one iteration of the `tokens_to_srt` loop. -/
def chunkStep (chunk_duration_ms : Int)
    (st : List SrtChunk × Option SrtChunk) (token : Token) :
    List SrtChunk × Option SrtChunk :=
  let bounds := token_time_bounds token
  match st.2 with
  | none => (st.1, some ⟨bounds.1, bounds.2, token.text⟩)
  | some c =>
    if bounds.2 - c.start_ms ≤ chunk_duration_ms then
      (st.1, some ⟨c.start_ms, bounds.2, c.text ++ token.text⟩)
    else
      (st.1 ++ [c], some ⟨bounds.1, bounds.2, token.text⟩)

/-- The sequence of chunks built by `tokens_to_srt` over a token list. -/
def srt_chunks (final_tokens : List Token) (chunk_duration_ms : Int) :
    List SrtChunk :=
  let st := final_tokens.foldl (chunkStep chunk_duration_ms) ([], none)
  match st.2 with
  | some c => st.1 ++ [c]
  | none => st.1

/-- The caption emitted for chunk number `idx`: index line, time line, and the
chunk text with surrounding whitespace stripped (possibly empty). -/
def captionOf (idx : Int) (c : SrtChunk) : String :=
  toString idx ++ "\n" ++ format_srt_time c.start_ms ++ " --> " ++
    format_srt_time c.end_ms ++ "\n" ++ pyStrip c.text

/-- Rendering of a list of already-closed interior chunks, every caption
followed by a blank line, numbering from `idx`. -/
def renderClosedFrom (idx : Int) : List SrtChunk → String
  | [] => ""
  | c :: rest => captionOf idx c ++ "\n\n" ++ renderClosedFrom (idx + 1) rest

/-- Spec-side subtitle document: every chunk becomes a numbered caption with
stripped (possibly empty) text; interior captions are followed by a blank
line, the final caption by a single newline. -/
def srtDocumentSpec (idx : Int) : List SrtChunk → String
  | [] => ""
  | [c] => captionOf idx c ++ "\n"
  | c :: rest => captionOf idx c ++ "\n\n" ++ srtDocumentSpec (idx + 1) rest

/-! ### Spec-side timestamped renderer -/

/-- The blocks of the timestamped transcript: one per segment with non-empty
stripped text, empty segments skipped. -/
def timestampBlocks (segments : List Segment) : List String :=
  segments.filterMap (fun segment =>
    let segment_text := pyStrip segment.text
    if segment_text = "" then none
    else some (segmentBlock segment segment_text))

/-- Spec-side timestamped renderer: segments via the segmenter at the default
gap of 1500 ms, empty segments skipped, remaining blocks joined with a single
blank line, and only trailing whitespace trimmed from the final result. -/
def renderTimestampedSpec (final_tokens : List Token) : String :=
  String.mk (rstripList (joinSep "\n"
    (timestampBlocks (group_tokens_by_speaker final_tokens DEFAULT_SEGMENT_GAP_MS))).data)

/-! ### C1: the time bound resolver -/

/-- C1: `token_time_bounds` returns `(start_ms, end_ms)` where `start_ms` is
the field `start_ms` of the token when present (a present `0`, being falsy, also
yields `0`) and `0` otherwise, and `end_ms` is the `end_ms` field when
present, else `start_ms + duration_ms` when `duration_ms` is present, else
`start_ms`; a token with `start_ms:1000`, `duration_ms:250` and no `end_ms`
resolves to `(1000, 1250)`. The function is total, so it always produces a
value and never raises. -/
theorem token_time_bounds_resolves_spec (token : Token) :
    (token.start_ms = none ∨ token.start_ms = some 0 →
      (token_time_bounds token).1 = 0) ∧
    (∀ v : Int, token.start_ms = some v → (token_time_bounds token).1 = v) ∧
    (∀ e : Int, token.end_ms = some e → (token_time_bounds token).2 = e) ∧
    (∀ d : Int, token.end_ms = none → token.duration_ms = some d →
      (token_time_bounds token).2 = (token_time_bounds token).1 + d) ∧
    (token.end_ms = none → token.duration_ms = none →
      (token_time_bounds token).2 = (token_time_bounds token).1) ∧
    token_time_bounds ⟨"x", none, none, some 1000, none, some 250⟩ = (1000, 1250) := by
  refine ⟨?_, ?_, ?_, ?_, ?_, rfl⟩
  · rintro (h | h) <;> simp [token_time_bounds, h]
  · intro v h
    simp [token_time_bounds, h]
  · intro e h
    simp [token_time_bounds, h]
  · intro d h1 h2
    simp [token_time_bounds, h1, h2]
  · intro h1 h2
    simp [token_time_bounds, h1, h2]

/-- Witness for C1 at concrete tokens. -/
theorem token_time_bounds_resolves_spec_witness :
    (token_time_bounds ⟨"a", none, none, some 7, none, some 5⟩).1 = 7 ∧
    (token_time_bounds ⟨"a", none, none, some 7, none, some 5⟩).2 =
      (token_time_bounds ⟨"a", none, none, some 7, none, some 5⟩).1 + 5 ∧
    (token_time_bounds ⟨"b", none, none, none, some 9, none⟩).2 = 9 :=
  ⟨(token_time_bounds_resolves_spec _).2.1 7 rfl,
   (token_time_bounds_resolves_spec _).2.2.2.1 5 rfl rfl,
   (token_time_bounds_resolves_spec _).2.2.1 9 rfl⟩

/-! ### C9: empty input -/

/-- C9: on the empty token array every public operation returns an empty
value and raises no error: the plain render is `""`, the segment list is
`[]`, the timestamped render is `""` and the subtitle document is `""`. -/
theorem empty_input_all_empty :
    render_tokens [] = "" ∧
    (∀ gap_ms : Int, group_tokens_by_speaker [] gap_ms = []) ∧
    render_tokens_with_timestamps [] = "" ∧
    (∀ chunk_duration_ms : Int, tokens_to_srt [] chunk_duration_ms = "") :=
  ⟨rfl, fun _ => rfl, rfl, fun _ => rfl⟩

/-! ### C2: segment gap boundary -/

/-- C2: for a same-speaker token the segmenter starts a new segment exactly
when the resolved start of the token minus the end of the current segment is strictly
greater than `gap_ms`; consequently a pause of exactly `gap_ms` keeps one
segment and a pause of `gap_ms + 1` produces two. -/
theorem group_gap_boundary :
    (∀ (gap_ms : Int) (segs : List Segment) (cur : Segment) (token : Token),
      resolve_speaker token = cur.speaker →
      (groupStep gap_ms (segs, some cur) token =
          (segs ++ [cur], some (seedSegment token)) ↔
        (token_time_bounds token).1 - cur.end_ms > gap_ms)) ∧
    (∀ gap_ms : Int,
      (group_tokens_by_speaker
        [⟨"a", some "1", none, some 0, some 0, none⟩,
         ⟨"b", some "1", none, some gap_ms, some gap_ms, none⟩] gap_ms).length = 1) ∧
    (∀ gap_ms : Int,
      (group_tokens_by_speaker
        [⟨"a", some "1", none, some 0, some 0, none⟩,
         ⟨"b", some "1", none, some (gap_ms + 1), some (gap_ms + 1), none⟩]
        gap_ms).length = 2) := by
  refine ⟨?_, ?_, ?_⟩
  · intro gap_ms segs cur token h
    by_cases hp : (token_time_bounds token).1 - cur.end_ms > gap_ms
    · simp [groupStep, h, hp]
    · simp [groupStep, h, hp]
  · intro gap_ms
    simp [group_tokens_by_speaker, groupStep, resolve_speaker, token_time_bounds,
      seedSegment, extendSegment]
  · intro gap_ms
    simp [group_tokens_by_speaker, groupStep, resolve_speaker, token_time_bounds,
      seedSegment, extendSegment]

/-- Witness for C2: a pause of 11 ms against a threshold of 10 ms splits. -/
theorem group_gap_boundary_witness :
    groupStep 10 ([], some ⟨"1", 0, 0, "a"⟩)
        ⟨"b", some "1", none, some 11, some 11, none⟩ =
      ([] ++ [⟨"1", 0, 0, "a"⟩],
        some (seedSegment ⟨"b", some "1", none, some 11, some 11, none⟩)) :=
  (group_gap_boundary.1 10 [] ⟨"1", 0, 0, "a"⟩
    ⟨"b", some "1", none, some 11, some 11, none⟩ rfl).mpr (by decide)

/-! ### C3: chunk duration boundary -/

/-- C3: with a chunk open and anchored at `cs` (the start of the first
start), a token whose resolved end equals `cs + chunk_duration_ms` stays in
the current chunk (the test is `<=`, the anchor is unchanged and nothing is
emitted), while a token whose resolved end exceeds that bound by one
millisecond closes the current chunk as a caption built from the previous
tokens only and becomes the sole first token of the next chunk. -/
theorem srt_chunk_boundary (chunk_duration_ms : Int) (st : SrtState)
    (token : Token) (cs : Int) (h : st.chunk_start_ms = some cs) :
    ((token_time_bounds token).2 = cs + chunk_duration_ms →
      (srtStep chunk_duration_ms st token).chunk_tokens =
        st.chunk_tokens ++ [token.text] ∧
      (srtStep chunk_duration_ms st token).chunk_start_ms = some cs ∧
      (srtStep chunk_duration_ms st token).srt_parts = st.srt_parts ∧
      (srtStep chunk_duration_ms st token).chunk_index = st.chunk_index) ∧
    ((token_time_bounds token).2 = cs + chunk_duration_ms + 1 →
      (srtStep chunk_duration_ms st token).chunk_tokens = [token.text] ∧
      (srtStep chunk_duration_ms st token).chunk_start_ms =
        some (token_time_bounds token).1 ∧
      (srtStep chunk_duration_ms st token).srt_parts =
        st.srt_parts ++ srtCaptionParts st ∧
      (srtStep chunk_duration_ms st token).chunk_index = st.chunk_index + 1) := by
  constructor
  · intro he
    have hle : (token_time_bounds token).2 - cs ≤ chunk_duration_ms := by omega
    simp [srtStep, h, hle]
  · intro he
    have hle : ¬ ((token_time_bounds token).2 - cs ≤ chunk_duration_ms) := by omega
    simp [srtStep, h, hle]

/-- Witness for C3: duration threshold 100, chunk anchored at 0; a token
ending at 101 reroutes, a token ending at exactly 100 stays. -/
theorem srt_chunk_boundary_witness :
    ((srtStep 100 ⟨["p"], 3, ["x "], some 0, some 50⟩
        ⟨"y", none, none, some 90, some 101, none⟩).chunk_tokens = ["y"] ∧
      (srtStep 100 ⟨["p"], 3, ["x "], some 0, some 50⟩
        ⟨"y", none, none, some 90, some 101, none⟩).chunk_start_ms =
        some (token_time_bounds ⟨"y", none, none, some 90, some 101, none⟩).1 ∧
      (srtStep 100 ⟨["p"], 3, ["x "], some 0, some 50⟩
        ⟨"y", none, none, some 90, some 101, none⟩).srt_parts =
        ["p"] ++ srtCaptionParts ⟨["p"], 3, ["x "], some 0, some 50⟩ ∧
      (srtStep 100 ⟨["p"], 3, ["x "], some 0, some 50⟩
        ⟨"y", none, none, some 90, some 101, none⟩).chunk_index = 3 + 1) ∧
    (srtStep 100 ⟨["p"], 3, ["x "], some 0, some 50⟩
        ⟨"z", none, none, some 90, some 100, none⟩).chunk_tokens =
      ["x "] ++ ["z"] :=
  ⟨(srt_chunk_boundary 100 ⟨["p"], 3, ["x "], some 0, some 50⟩
      ⟨"y", none, none, some 90, some 101, none⟩ 0 rfl).2 (by decide),
   ((srt_chunk_boundary 100 ⟨["p"], 3, ["x "], some 0, some 50⟩
      ⟨"z", none, none, some 90, some 100, none⟩ 0 rfl).1 (by decide)).1⟩

/-! ### C4: segmentation preserves text length -/

/-- `sum(len(token.text) for token in tokens)`. -/
def tokensTextLength (tokens : List Token) : Nat :=
  (tokens.map (fun t => t.text.length)).sum

/-- `sum(len(segment.text) for segment in segments)`. -/
def segmentsTextLength (segments : List Segment) : Nat :=
  (segments.map (fun s => s.text.length)).sum

/-- Text length held in a segmenter state (finalized segments plus the
current one). -/
def stateTextLength (st : List Segment × Option Segment) : Nat :=
  segmentsTextLength st.1 +
    (match st.2 with
     | some c => c.text.length
     | none => 0)

lemma stateTextLength_groupStep (gap_ms : Int)
    (st : List Segment × Option Segment) (token : Token) :
    stateTextLength (groupStep gap_ms st token) =
      stateTextLength st + token.text.length := by
  rcases st with ⟨segs, cur⟩
  cases cur with
  | none => simp [groupStep, stateTextLength, seedSegment]
  | some c =>
    by_cases hc : resolve_speaker token ≠ c.speaker ∨
        (token_time_bounds token).1 - c.end_ms > gap_ms
    · simp only [groupStep, hc, if_true, stateTextLength, segmentsTextLength,
        seedSegment, List.map_append, List.sum_append, List.map_cons,
        List.map_nil, List.sum_cons, List.sum_nil]
      omega
    · simp only [groupStep, hc, if_false, stateTextLength, extendSegment,
        String.length_append]
      ring

lemma stateTextLength_foldl (gap_ms : Int) :
    ∀ (tokens : List Token) (st : List Segment × Option Segment),
      stateTextLength (tokens.foldl (groupStep gap_ms) st) =
        stateTextLength st + tokensTextLength tokens := by
  intro tokens
  induction tokens with
  | nil => intro st; simp [tokensTextLength]
  | cons t ts ih =>
    intro st
    simp only [List.foldl_cons, ih, stateTextLength_groupStep, tokensTextLength,
      List.map_cons, List.sum_cons]
    omega

/-- C4: for every token list and every `gap_ms`, the total text length of the
segments returned by the segmenter equals the total text length of the
tokens — segmentation never drops or duplicates any token text. -/
theorem group_preserves_text_length (tokens : List Token) (gap_ms : Int) :
    segmentsTextLength (group_tokens_by_speaker tokens gap_ms) =
      tokensTextLength tokens := by
  have h := stateTextLength_foldl gap_ms tokens ([], none)
  simp only [group_tokens_by_speaker]
  rcases hfold : tokens.foldl (groupStep gap_ms) ([], none) with ⟨segs, cur⟩
  rw [hfold] at h
  cases cur with
  | none =>
    simpa [stateTextLength, segmentsTextLength] using h
  | some c =>
    simp only [stateTextLength, segmentsTextLength, List.map_nil, List.sum_nil] at h
    simp only [segmentsTextLength, List.map_append, List.sum_append, List.map_cons,
      List.map_nil, List.sum_cons, List.sum_nil]
    omega

/-! ### C6: plain renderer speaker and language transitions -/

/-- C6: in the plain renderer, a token whose resolved speaker differs from
the tracked speaker emits a paragraph break exactly when a previous speaker
block existed, then the header `Speaker <id>:`, and resets the tracked
language, so a present language is re-marked (with `\n[<language>] ` and
left-stripped token text) even if it equals the language tracked before the
change; with an unchanged speaker, a present language emits the marker and
left-strips the text exactly when it differs from the tracked language. -/
theorem renderStep_speaker_language_spec (st : RenderState) (token : Token) :
    (some (resolve_speaker token) ≠ st.current_speaker →
      (renderStep st token).current_speaker = some (resolve_speaker token) ∧
      (token.language = none →
        (renderStep st token).parts =
          st.parts ++ (if st.current_speaker.isSome then ["\n\n"] else []) ++
            ["Speaker " ++ resolve_speaker token ++ ":"] ++ [token.text] ∧
        (renderStep st token).current_language = none) ∧
      (∀ lang, token.language = some lang →
        (renderStep st token).parts =
          st.parts ++ (if st.current_speaker.isSome then ["\n\n"] else []) ++
            ["Speaker " ++ resolve_speaker token ++ ":"] ++
            ["\n[" ++ lang ++ "] ", pyLstrip token.text] ∧
        (renderStep st token).current_language = some lang)) ∧
    (some (resolve_speaker token) = st.current_speaker →
      (token.language = none →
        (renderStep st token).parts = st.parts ++ [token.text] ∧
        (renderStep st token).current_language = st.current_language) ∧
      (∀ lang, token.language = some lang → some lang ≠ st.current_language →
        (renderStep st token).parts =
          st.parts ++ ["\n[" ++ lang ++ "] ", pyLstrip token.text] ∧
        (renderStep st token).current_language = some lang) ∧
      (∀ lang, token.language = some lang → some lang = st.current_language →
        (renderStep st token).parts = st.parts ++ [token.text] ∧
        (renderStep st token).current_language = st.current_language)) := by
  constructor
  · intro hsp
    refine ⟨?_, ?_, ?_⟩
    · cases hl : token.language with
      | none => simp [renderStep, hsp, hl]
      | some lang => simp [renderStep, hsp, hl]
    · intro hl
      simp [renderStep, hsp, hl]
    · intro lang hl
      simp [renderStep, hsp, hl]
  · intro hsp
    refine ⟨?_, ?_, ?_⟩
    · intro hl
      simp [renderStep, hsp.symm, hl]
    · intro lang hl hne
      simp [renderStep, hsp.symm, hl, hne]
    · intro lang hl heq
      simp [renderStep, hsp.symm, hl, ← heq]

/-- Witness for C6: a speaker change from "1" to "2" while the tracked
language is already "en" re-emits the "[en]" marker and left-strips the
token text. -/
theorem renderStep_speaker_language_spec_witness :
    (renderStep ⟨["x"], some "1", some "en"⟩
        ⟨" hi", some "2", some "en", none, none, none⟩).parts =
      ["x"] ++ (if (some "1" : Option String).isSome then ["\n\n"] else []) ++
        ["Speaker " ++
          resolve_speaker ⟨" hi", some "2", some "en", none, none, none⟩ ++ ":"] ++
        ["\n[" ++ "en" ++ "] ", pyLstrip " hi"] ∧
    (renderStep ⟨["x"], some "1", some "en"⟩
        ⟨" hi", some "2", some "en", none, none, none⟩).current_language =
      some "en" :=
  ((renderStep_speaker_language_spec ⟨["x"], some "1", some "en"⟩
      ⟨" hi", some "2", some "en", none, none, none⟩).1 (by decide)).2.2 "en" rfl

/-! ### C5: timestamped renderer refinement -/

lemma timestampBlocks_foldl (segments : List Segment) :
    ∀ acc : List String,
      segments.foldl timestampFoldStep acc = acc ++ timestampBlocks segments := by
  induction segments with
  | nil => intro acc; simp [timestampBlocks]
  | cons s ss ih =>
    intro acc
    by_cases h : pyStrip s.text = ""
    · simp [List.foldl_cons, timestampFoldStep, h, ih, timestampBlocks,
        List.filterMap_cons]
    · simp [List.foldl_cons, timestampFoldStep, h, ih, timestampBlocks,
        List.filterMap_cons]

lemma timestampBlocks_head (segments : List Segment) :
    ∀ b ∈ timestampBlocks segments, ∃ r, b = "[" ++ r := by
  intro b hb
  simp only [timestampBlocks, List.mem_filterMap] at hb
  obtain ⟨seg, _, hseg⟩ := hb
  by_cases h : pyStrip seg.text = ""
  · simp [h] at hseg
  · simp only [h, if_false, Option.some_inj] at hseg
    exact ⟨format_time seg.start_ms ++ (" --> " ++ (format_time seg.end_ms ++
      ("] Speaker " ++ (seg.speaker ++ (":\n" ++ (pyStrip seg.text ++ "\n")))))),
      by rw [← hseg]; simp [segmentBlock, String.append_assoc]⟩

lemma joinSep_cons (sep b : String) (rest : List String) :
    ∃ t, joinSep sep (b :: rest) = b ++ t := by
  cases rest with
  | nil => exact ⟨"", (String.append_empty b).symm⟩
  | cons c cs =>
    exact ⟨sep ++ joinSep sep (c :: cs), by simp [joinSep, String.append_assoc]⟩

/-- C5: the timestamped renderer equals the pipeline the spec describes:
segments from the segmenter at the default gap of 1500 ms, the text of each segment stripped, segments with empty stripped text skipped entirely, the
remaining blocks joined with a single blank line, and trailing whitespace
trimmed from the final result — in particular the result is `""` when there
are no segments or all stripped texts are empty. -/
theorem render_timestamps_follows_spec (final_tokens : List Token) :
    render_tokens_with_timestamps final_tokens =
      renderTimestampedSpec final_tokens := by
  simp only [render_tokens_with_timestamps, renderTimestampedSpec]
  rcases hsegs : group_tokens_by_speaker final_tokens DEFAULT_SEGMENT_GAP_MS
    with _ | ⟨s, ss⟩
  · rfl
  · rw [if_neg (by simp), timestampBlocks_foldl, List.nil_append]
    rcases hb : timestampBlocks (s :: ss) with _ | ⟨b, rest⟩
    · rfl
    · obtain ⟨r, hr⟩ := timestampBlocks_head (s :: ss) b
        (hb ▸ List.mem_cons_self b rest)
      obtain ⟨t, ht⟩ := joinSep_cons "\n" b rest
      rw [ht, hr, String.append_assoc]
      show String.mk (stripList _) = String.mk (rstripList _)
      refine congrArg String.mk ?_
      have hdata : ("[" ++ (r ++ t)).data = '[' :: (r ++ t).data := by
        simp [String.data_append]
      rw [hdata, stripList, lstripList, List.dropWhile_cons]
      simp

/-! ### C7: segmentation is idempotent on its own runs -/

/-- A segment paired with the run of tokens that formed it is well-formed:
the run is non-empty, replaying the segmenter on the run alone reproduces
exactly this segment as the single in-progress segment, and the end bound
of the segment is the running maximum of the end bounds of the run. -/
def goodPair (gap_ms : Int) (p : Segment × List Token) : Prop :=
  p.2 ≠ [] ∧
  p.2.foldl (groupStep gap_ms) ([], none) = ([], some p.1) ∧
  p.1.end_ms = runEndMax p.2

/-- Invariant of the instrumented segmenter fold. -/
def runsInv (gap_ms : Int)
    (st : List (Segment × List Token) × Option (Segment × List Token)) : Prop :=
  (∀ p ∈ st.1, goodPair gap_ms p) ∧ (∀ p, st.2 = some p → goodPair gap_ms p)

lemma goodPair_seed (gap_ms : Int) (token : Token) :
    goodPair gap_ms (seedSegment token, [token]) :=
  ⟨by simp, rfl, rfl⟩

lemma goodPair_extend (gap_ms : Int) (seg : Segment) (run : List Token)
    (token : Token) (hg : goodPair gap_ms (seg, run))
    (hcond : ¬(resolve_speaker token ≠ seg.speaker ∨
      (token_time_bounds token).1 - seg.end_ms > gap_ms)) :
    goodPair gap_ms (extendSegment seg token, run ++ [token]) := by
  obtain ⟨hne, hrep, hmax⟩ := hg
  refine ⟨by simp, ?_, ?_⟩
  · rw [List.foldl_append, hrep]
    simp [groupStep, hcond]
  · rcases run with _ | ⟨h0, tl⟩
    · exact absurd rfl hne
    · simp only [runEndMax] at hmax
      simp only [runEndMax, List.cons_append, List.foldl_append, List.foldl_cons,
        List.foldl_nil, extendSegment]
      rw [← hmax]

lemma runsInv_step (gap_ms : Int)
    (st : List (Segment × List Token) × Option (Segment × List Token))
    (token : Token) (h : runsInv gap_ms st) :
    runsInv gap_ms (runStep gap_ms st token) := by
  obtain ⟨hfin, hcur⟩ := h
  rcases st with ⟨finished, cur⟩
  cases cur with
  | none =>
    refine ⟨fun p hp => hfin p hp, fun p hp => ?_⟩
    simp only [runStep, Option.some_inj] at hp
    exact hp ▸ goodPair_seed gap_ms token
  | some c =>
    by_cases hcond : resolve_speaker token ≠ c.1.speaker ∨
        (token_time_bounds token).1 - c.1.end_ms > gap_ms
    · refine ⟨fun p hp => ?_, fun p hp => ?_⟩
      · simp only [runStep, hcond, if_true, List.mem_append,
          List.mem_singleton] at hp
        rcases hp with hp | rfl
        · exact hfin p hp
        · exact hcur p rfl
      · simp only [runStep, hcond, if_true, Option.some_inj] at hp
        exact hp ▸ goodPair_seed gap_ms token
    · refine ⟨fun p hp => ?_, fun p hp => ?_⟩
      · simp only [runStep, hcond, if_false] at hp
        exact hfin p hp
      · simp only [runStep, hcond, if_false, Option.some_inj] at hp
        rcases c with ⟨seg, run⟩
        exact hp ▸ goodPair_extend gap_ms seg run token (hcur _ rfl) hcond

lemma runsInv_foldl (gap_ms : Int) :
    ∀ (tokens : List Token) st, runsInv gap_ms st →
      runsInv gap_ms (tokens.foldl (runStep gap_ms) st) := by
  intro tokens
  induction tokens with
  | nil => intro st h; exact h
  | cons t ts ih => intro st h; exact ih _ (runsInv_step _ _ _ h)

lemma group_runs_good (tokens : List Token) (gap_ms : Int) :
    ∀ p ∈ group_runs tokens gap_ms, goodPair gap_ms p := by
  have h := runsInv_foldl gap_ms tokens ([], none)
    ⟨fun p hp => absurd hp (List.not_mem_nil p), fun p hp => Option.noConfusion hp⟩
  intro p hp
  simp only [group_runs] at hp
  rcases hfold : tokens.foldl (runStep gap_ms) ([], none) with ⟨fins, cur⟩
  rw [hfold] at hp h
  cases cur with
  | none => exact h.1 p hp
  | some c =>
    simp only [List.mem_append, List.mem_singleton] at hp
    rcases hp with hp | rfl
    · exact h.1 p hp
    · exact h.2 p rfl

/-- Forgetting the recorded runs of an instrumented segmenter state. -/
def projRuns (st : List (Segment × List Token) × Option (Segment × List Token)) :
    List Segment × Option Segment :=
  (st.1.map Prod.fst, st.2.map Prod.fst)

lemma projRuns_runStep (gap_ms : Int)
    (st : List (Segment × List Token) × Option (Segment × List Token))
    (token : Token) :
    projRuns (runStep gap_ms st token) = groupStep gap_ms (projRuns st) token := by
  rcases st with ⟨fins, cur⟩
  cases cur with
  | none => simp [projRuns, runStep, groupStep]
  | some c =>
    by_cases hcond : resolve_speaker token ≠ c.1.speaker ∨
        (token_time_bounds token).1 - c.1.end_ms > gap_ms
    · simp [projRuns, runStep, groupStep, hcond]
    · simp [projRuns, runStep, groupStep, hcond]

lemma projRuns_foldl (gap_ms : Int) :
    ∀ (tokens : List Token) st,
      projRuns (tokens.foldl (runStep gap_ms) st) =
        tokens.foldl (groupStep gap_ms) (projRuns st) := by
  intro tokens
  induction tokens with
  | nil => intro st; rfl
  | cons t ts ih =>
    intro st
    rw [List.foldl_cons, List.foldl_cons, ih, projRuns_runStep]

lemma group_runs_fst (tokens : List Token) (gap_ms : Int) :
    (group_runs tokens gap_ms).map Prod.fst =
      group_tokens_by_speaker tokens gap_ms := by
  simp only [group_runs, group_tokens_by_speaker]
  have h := projRuns_foldl gap_ms tokens ([], none)
  rcases hfold : tokens.foldl (runStep gap_ms) ([], none) with ⟨fins, cur⟩
  rw [hfold] at h
  simp only [projRuns, List.map_nil, Option.map_none'] at h
  rw [← h]
  cases cur <;> simp

/-- The tokens consumed so far according to an instrumented state. -/
def runsTokens
    (st : List (Segment × List Token) × Option (Segment × List Token)) :
    List Token :=
  (st.1.map Prod.snd).flatten ++
    (match st.2 with
     | some p => p.2
     | none => [])

lemma runsTokens_runStep (gap_ms : Int)
    (st : List (Segment × List Token) × Option (Segment × List Token))
    (token : Token) :
    runsTokens (runStep gap_ms st token) = runsTokens st ++ [token] := by
  rcases st with ⟨fins, cur⟩
  cases cur with
  | none => simp [runsTokens, runStep]
  | some c =>
    by_cases hcond : resolve_speaker token ≠ c.1.speaker ∨
        (token_time_bounds token).1 - c.1.end_ms > gap_ms
    · simp [runsTokens, runStep, hcond]
    · simp [runsTokens, runStep, hcond]

lemma runsTokens_foldl (gap_ms : Int) :
    ∀ (tokens : List Token) st,
      runsTokens (tokens.foldl (runStep gap_ms) st) = runsTokens st ++ tokens := by
  intro tokens
  induction tokens with
  | nil => intro st; simp
  | cons t ts ih =>
    intro st
    rw [List.foldl_cons, ih, runsTokens_runStep]
    simp

lemma group_runs_flatten (tokens : List Token) (gap_ms : Int) :
    ((group_runs tokens gap_ms).map Prod.snd).flatten = tokens := by
  simp only [group_runs]
  have h := runsTokens_foldl gap_ms tokens ([], none)
  rcases hfold : tokens.foldl (runStep gap_ms) ([], none) with ⟨fins, cur⟩
  rw [hfold] at h
  simp only [runsTokens, List.map_nil, List.flatten_nil, List.nil_append] at h
  cases cur with
  | none => simpa using h
  | some c => simpa [List.flatten_append] using h

/-- C7: the instrumented segmenter partitions the token list into the
contiguous runs that formed the segments (projecting the runs away gives
exactly `group_tokens_by_speaker`, and the runs concatenate back to the
input), and re-running the segmenter with the same `gap_ms` on any
run of any segment yields exactly that one segment. -/
theorem segmentation_idempotent_on_runs (tokens : List Token) (gap_ms : Int) :
    ((group_runs tokens gap_ms).map Prod.fst =
      group_tokens_by_speaker tokens gap_ms) ∧
    (((group_runs tokens gap_ms).map Prod.snd).flatten = tokens) ∧
    (∀ p ∈ group_runs tokens gap_ms,
      group_tokens_by_speaker p.2 gap_ms = [p.1]) := by
  refine ⟨group_runs_fst tokens gap_ms, group_runs_flatten tokens gap_ms, ?_⟩
  intro p hp
  obtain ⟨hne, hrep, hmax⟩ := group_runs_good tokens gap_ms p hp
  simp only [group_tokens_by_speaker, hrep]
  rfl

/-- Witness for C7: re-segmenting the single run of a two-token input
reproduces its one segment. -/
theorem segmentation_idempotent_on_runs_witness :
    group_tokens_by_speaker
      [⟨"Hi ", some "1", none, some 0, some 500, none⟩,
       ⟨"there", some "1", none, some 600, some 1000, none⟩] 1500 =
      [⟨"1", 0, 1000, "Hi there"⟩] :=
  (segmentation_idempotent_on_runs
    [⟨"Hi ", some "1", none, some 0, some 500, none⟩,
     ⟨"there", some "1", none, some 600, some 1000, none⟩] 1500).2.2
    (⟨"1", 0, 1000, "Hi there"⟩,
     [⟨"Hi ", some "1", none, some 0, some 500, none⟩,
      ⟨"there", some "1", none, some 600, some 1000, none⟩])
    (by decide)

/-! ### C8: segments are maximal runs -/

/-- Invariant of the segmenter fold: before any token is consumed nothing is
finalized, and afterwards the finalized segments followed by the current one
form a chain for `segGapRel`. -/
def chainInv (gap_ms : Int) (st : List Segment × Option Segment) : Prop :=
  match st.2 with
  | none => st.1 = []
  | some cur => List.Chain' (segGapRel gap_ms) (st.1 ++ [cur])

lemma chainInv_groupStep (gap_ms : Int) (st : List Segment × Option Segment)
    (token : Token) (h : chainInv gap_ms st) :
    chainInv gap_ms (groupStep gap_ms st token) := by
  rcases st with ⟨segs, cur⟩
  cases cur with
  | none =>
    have hnil : segs = [] := h
    subst hnil
    simp [groupStep, chainInv]
  | some c =>
    by_cases hcond : resolve_speaker token ≠ c.speaker ∨
        (token_time_bounds token).1 - c.end_ms > gap_ms
    · simp only [chainInv] at h
      simp only [groupStep, hcond, if_true, chainInv]
      rw [List.chain'_append]
      refine ⟨h, List.chain'_singleton _, ?_⟩
      intro x hx y hy
      simp only [List.getLast?_concat, Option.mem_def, Option.some_inj] at hx
      simp only [List.head?_cons, Option.mem_def, Option.some_inj] at hy
      subst hx
      subst hy
      rcases hcond with hcond | hcond
      · exact Or.inl hcond
      · exact Or.inr hcond
    · simp only [chainInv] at h
      simp only [groupStep, hcond, if_false, chainInv]
      rw [List.chain'_append] at h ⊢
      refine ⟨h.1, List.chain'_singleton _, ?_⟩
      intro x hx y hy
      simp only [List.head?_cons, Option.mem_def, Option.some_inj] at hy
      subst hy
      have := h.2.2 x hx c (by simp)
      simpa [segGapRel, extendSegment] using this

lemma chainInv_foldl (gap_ms : Int) :
    ∀ (tokens : List Token) st, chainInv gap_ms st →
      chainInv gap_ms (tokens.foldl (groupStep gap_ms) st) := by
  intro tokens
  induction tokens with
  | nil => intro st h; exact h
  | cons t ts ih => intro st h; exact ih _ (chainInv_groupStep _ _ _ h)

lemma chain_group_tokens (tokens : List Token) (gap_ms : Int) :
    List.Chain' (segGapRel gap_ms) (group_tokens_by_speaker tokens gap_ms) := by
  have h := chainInv_foldl gap_ms tokens ([], none) rfl
  simp only [group_tokens_by_speaker]
  rcases hfold : tokens.foldl (groupStep gap_ms) ([], none) with ⟨segs, cur⟩
  rw [hfold] at h
  cases cur with
  | none =>
    have hnil : segs = [] := h
    subst hnil
    exact List.chain'_nil
  | some c => exact h

/-- C8: any two adjacent segments either carry different speakers or are
separated by a pause strictly longer than `gap_ms`; the end bound of each segment
is the running maximum of the end bounds of its run; and extending a segment
never decreases its end bound. -/
theorem segments_maximal_runs (tokens : List Token) (gap_ms : Int) :
    List.Chain' (segGapRel gap_ms) (group_tokens_by_speaker tokens gap_ms) ∧
    (∀ p ∈ group_runs tokens gap_ms, p.1.end_ms = runEndMax p.2) ∧
    (∀ (cur : Segment) (token : Token),
      (extendSegment cur token).end_ms = max cur.end_ms (token_time_bounds token).2 ∧
      cur.end_ms ≤ (extendSegment cur token).end_ms) := by
  refine ⟨chain_group_tokens tokens gap_ms, ?_, ?_⟩
  · intro p hp
    exact (group_runs_good tokens gap_ms p hp).2.2
  · intro cur token
    exact ⟨rfl, le_max_left _ _⟩

/-- Witness for C8: the end bound of the single segment of a two-token input
is the running maximum of the end bounds of its run. -/
theorem segments_maximal_runs_witness :
    (Segment.mk "2" 0 900 "ab").end_ms =
      runEndMax [⟨"a", some "2", none, some 0, some 900, none⟩,
        ⟨"b", some "2", none, some 400, some 700, none⟩] :=
  (segments_maximal_runs
    [⟨"a", some "2", none, some 0, some 900, none⟩,
     ⟨"b", some "2", none, some 400, some 700, none⟩] 1500).2.1
    (⟨"2", 0, 900, "ab"⟩,
     [⟨"a", some "2", none, some 0, some 900, none⟩,
      ⟨"b", some "2", none, some 400, some 700, none⟩])
    (by decide)

/-! ### C10: every chunk becomes a caption -/

lemma foldl_append_init (l : List String) :
    ∀ b, l.foldl (· ++ ·) b = b ++ String.join l := by
  induction l with
  | nil => intro b; exact (String.append_empty b).symm
  | cons a l ih =>
    intro b
    show (a :: l).foldl (· ++ ·) b = _
    rw [List.foldl_cons, ih (b ++ a)]
    have h2 : String.join (a :: l) = a ++ String.join l := by
      show (a :: l).foldl (· ++ ·) "" = _
      rw [List.foldl_cons, ih ("" ++ a), String.empty_append]
    rw [h2, String.append_assoc]

lemma string_join_append (l1 l2 : List String) :
    String.join (l1 ++ l2) = String.join l1 ++ String.join l2 := by
  show (l1 ++ l2).foldl (· ++ ·) "" = _
  rw [List.foldl_append]
  exact foldl_append_init l2 _

lemma string_join_singleton (a : String) : String.join [a] = a :=
  String.empty_append a

lemma renderClosedFrom_append (cs : List SrtChunk) :
    ∀ (idx : Int) (c : SrtChunk),
      renderClosedFrom idx (cs ++ [c]) =
        renderClosedFrom idx cs ++ (captionOf (idx + cs.length) c ++ "\n\n") := by
  induction cs with
  | nil =>
    intro idx c
    simp [renderClosedFrom, String.append_assoc]
  | cons d ds ih =>
    intro idx c
    rw [show ((d :: ds) ++ [c]) = d :: (ds ++ [c]) from rfl]
    rw [show renderClosedFrom idx (d :: (ds ++ [c])) =
          captionOf idx d ++ "\n\n" ++ renderClosedFrom (idx + 1) (ds ++ [c])
        from rfl]
    rw [ih (idx + 1) c]
    rw [show renderClosedFrom idx (d :: ds) =
          captionOf idx d ++ "\n\n" ++ renderClosedFrom (idx + 1) ds from rfl]
    have hidx : idx + 1 + (ds.length : Int) = idx + (((d :: ds).length : Nat) : Int) := by
      simp only [List.length_cons]
      push_cast
      ring
    rw [hidx]
    simp [String.append_assoc]

lemma srtDocumentSpec_append (cs : List SrtChunk) :
    ∀ (idx : Int) (c : SrtChunk),
      srtDocumentSpec idx (cs ++ [c]) =
        renderClosedFrom idx cs ++ (captionOf (idx + cs.length) c ++ "\n") := by
  induction cs with
  | nil =>
    intro idx c
    simp [srtDocumentSpec, renderClosedFrom, String.append_assoc]
  | cons d ds ih =>
    intro idx c
    rcases ds with _ | ⟨e, es⟩
    · simp [srtDocumentSpec, renderClosedFrom, String.append_assoc]
    · rw [show ((d :: e :: es) ++ [c]) = d :: ((e :: es) ++ [c]) from rfl]
      rw [show srtDocumentSpec idx (d :: ((e :: es) ++ [c])) =
            captionOf idx d ++ "\n\n" ++ srtDocumentSpec (idx + 1) ((e :: es) ++ [c])
          from rfl]
      rw [ih (idx + 1) c]
      simp only [renderClosedFrom, List.length_cons]
      have hidx : idx + 1 + ((es.length + 1 : Nat) : Int) =
          idx + ((es.length + 1 + 1 : Nat) : Int) := by
        push_cast
        ring
      rw [hidx]
      simp [String.append_assoc]

/-- Simulation relation between the textual `tokens_to_srt` loop state and
the chunk-level state: the emitted parts render the closed chunks, the
1-based index counts them, and the open-chunk fields mirror the current
chunk. -/
def srtRel (st : SrtState) (ct : List SrtChunk × Option SrtChunk) : Prop :=
  String.join st.srt_parts = renderClosedFrom 1 ct.1 ∧
  st.chunk_index = 1 + (ct.1.length : Int) ∧
  (match ct.2 with
   | none => ct.1 = [] ∧ st.chunk_start_ms = none ∧ st.chunk_tokens = []
   | some c =>
     st.chunk_start_ms = some c.start_ms ∧
     st.chunk_end_ms = some c.end_ms ∧
     String.join st.chunk_tokens = c.text ∧
     st.chunk_tokens ≠ [])

lemma string_join_triple (a b c : String) :
    String.join [a, b, c] = a ++ (b ++ c) := by
  show (("" ++ a) ++ b) ++ c = _
  rw [String.empty_append, String.append_assoc]

lemma srtRel_step (chunk_duration_ms : Int) (st : SrtState)
    (ct : List SrtChunk × Option SrtChunk) (token : Token)
    (h : srtRel st ct) :
    srtRel (srtStep chunk_duration_ms st token)
      (chunkStep chunk_duration_ms ct token) := by
  obtain ⟨hparts, hidx, hcur⟩ := h
  rcases ct with ⟨closed, cur⟩
  simp only at hparts hidx
  cases cur with
  | none =>
    obtain ⟨hcl, hs, htoks⟩ := hcur
    subst hcl
    unfold srtRel
    simp only [chunkStep]
    refine ⟨?_, ?_, ?_, ?_, ?_, ?_⟩
    · simpa [srtStep, hs] using hparts
    · simpa [srtStep, hs] using hidx
    · simp [srtStep, hs]
    · simp [srtStep, hs]
    · simp [srtStep, hs, string_join_singleton]
    · simp [srtStep, hs]
  | some c =>
    obtain ⟨hs, he, htext, hne⟩ := hcur
    by_cases hcond : (token_time_bounds token).2 - c.start_ms ≤ chunk_duration_ms
    · unfold srtRel
      simp only [chunkStep, hcond, if_true]
      refine ⟨?_, ?_, ?_, ?_, ?_, ?_⟩
      · simpa [srtStep, hs, hcond] using hparts
      · simpa [srtStep, hs, hcond] using hidx
      · simp [srtStep, hs, hcond]
      · simp [srtStep, hs, hcond]
      · simp [srtStep, hs, hcond, string_join_append, string_join_singleton, htext]
      · simp [srtStep, hs, hcond]
    · unfold srtRel
      simp only [chunkStep, hcond, if_false]
      refine ⟨?_, ?_, ?_, ?_, ?_, ?_⟩
      · simp only [srtStep, hs, hcond, if_false]
        rw [string_join_append, hparts, renderClosedFrom_append]
        congr 1
        simp only [srtCaptionParts, hs, he, Option.getD_some, htext]
        rw [string_join_triple, ← hidx]
        simp [captionOf, htext, String.append_assoc]
      · simp only [srtStep, hs, hcond, if_false, List.length_append,
          List.length_cons, List.length_nil]
        rw [hidx]
        push_cast
        ring
      · simp [srtStep, hs, hcond]
      · simp [srtStep, hs, hcond]
      · simp [srtStep, hs, hcond, string_join_singleton]
      · simp [srtStep, hs, hcond]

lemma srtRel_init : srtRel ⟨[], 1, [], none, none⟩ ([], none) := by
  refine ⟨rfl, by simp, rfl, rfl, rfl⟩

lemma srtRel_foldl (chunk_duration_ms : Int) :
    ∀ (tokens : List Token) st ct, srtRel st ct →
      srtRel (tokens.foldl (srtStep chunk_duration_ms) st)
        (tokens.foldl (chunkStep chunk_duration_ms) ct) := by
  intro tokens
  induction tokens with
  | nil => intro st ct h; exact h
  | cons t ts ih => intro st ct h; exact ih _ _ (srtRel_step _ _ _ _ h)

/-- C10: the subtitle chunker emits every chunk as a numbered caption whose
text line is the concatenation of the token texts of the chunk with surrounding
whitespace stripped, so a whitespace-only chunk yields a caption with an
empty text line instead of being skipped — as on the concrete whitespace-only
input, whose caption keeps its (empty) text line. -/
theorem tokens_to_srt_emits_every_chunk (final_tokens : List Token)
    (chunk_duration_ms : Int) :
    tokens_to_srt final_tokens chunk_duration_ms =
      srtDocumentSpec 1 (srt_chunks final_tokens chunk_duration_ms) ∧
    tokens_to_srt [⟨"   ", none, none, some 0, some 100, none⟩] 5000 =
      "1\n00:00:00,000 --> 00:00:00,100\n\n" := by
  constructor
  · rcases final_tokens with _ | ⟨t, ts⟩
    · rfl
    · have h := srtRel_foldl chunk_duration_ms (t :: ts)
        ⟨[], 1, [], none, none⟩ ([], none) srtRel_init
      simp only [tokens_to_srt, srt_chunks]
      rw [if_neg (by simp)]
      rcases hfold : (t :: ts).foldl (srtStep chunk_duration_ms)
        ⟨[], 1, [], none, none⟩ with ⟨parts, idx, ctoks, cs, ce⟩
      rcases hfold2 : (t :: ts).foldl (chunkStep chunk_duration_ms) ([], none)
        with ⟨closedL, cur⟩
      rw [hfold, hfold2] at h
      obtain ⟨hparts, hidx, hcur⟩ := h
      simp only at hparts hidx hcur
      cases cur with
      | none =>
        obtain ⟨hcl, hcs, htoks⟩ := hcur
        subst hcl
        subst htoks
        simp [hparts, renderClosedFrom, srtDocumentSpec]
      | some c =>
        obtain ⟨hcs, hce, htext, hne⟩ := hcur
        simp only at hcs hce htext hne ⊢
        rw [if_neg hne]
        rw [string_join_append, hparts, srtDocumentSpec_append]
        congr 1
        simp only [hcs, hce, Option.getD_some, string_join_triple, htext, hidx]
        simp [captionOf, String.append_assoc]
  · rfl

end Soniox
